import Mathlib

/-!
# Verification of the dynwave audio pipeline

Shallow embedding of the `dynwave` crate (`src/lib.rs`, `src/utils.rs`,
`src/error.rs`) and proofs about its device-capability matcher, channel
frame codec, rate-converter carry-over accounting, and bounded handoff
buffer.

External collaborators (the `cpal` audio backend, the `rubato` resampling
transform, and the `ringbuf` SPSC queue) are not part of the repository's
sources; where their behaviour is needed it is modelled from the spec's
description of the boundary contract, and marked as such on the
definition.
-/

set_option linter.unusedVariables false

/-! ## Sample formats and device configurations (matcher data model) -/

/-- The `cpal::SampleFormat` enumeration, as referenced by `lib.rs`
(`c.sample_format() == T::FORMAT`). Only equality of formats is ever
inspected by the code under verification. -/
inductive SampleFormat where
  | i8 | i16 | i32 | i64
  | u8 | u16 | u32 | u64
  | f32 | f64
deriving DecidableEq

/-- A device configuration range as enumerated by the backend:
`cpal::SupportedStreamConfigRange` (channel count, rate range, sample
format), the read-only capability record scanned by `AudioPlayer::new`. -/
structure SupportedStreamConfigRange where
  channels : Nat
  min_sample_rate : Nat
  max_sample_rate : Nat
  sample_format : SampleFormat
deriving DecidableEq

/-- A concrete output configuration (`cpal::SupportedStreamConfig`):
channel count, a single sample rate, and a sample format. -/
structure SupportedStreamConfig where
  channels : Nat
  sample_rate : Nat
  sample_format : SampleFormat
deriving DecidableEq

/-- Modelled from the spec: `cpal`'s
`SupportedStreamConfigRange::try_with_sample_rate` (external backend
helper used at `lib.rs` line 321) — "If the winning configuration supports
the requested rate exactly, pin the rate to it". Returns the range turned
into a concrete config at `rate` when `rate` lies in `[min, max]`. -/
def SupportedStreamConfigRange.try_with_sample_rate
    (c : SupportedStreamConfigRange) (rate : Nat) : Option SupportedStreamConfig :=
  if c.min_sample_rate ≤ rate ∧ rate ≤ c.max_sample_rate then
    some ⟨c.channels, rate, c.sample_format⟩
  else
    none

/-- Modelled from the spec: `cpal`'s
`SupportedStreamConfigRange::with_max_sample_rate` (external backend
helper used at `lib.rs` line 322) — "otherwise clamp to that
configuration's maximum supported rate". -/
def SupportedStreamConfigRange.with_max_sample_rate
    (c : SupportedStreamConfigRange) : SupportedStreamConfig :=
  ⟨c.channels, c.max_sample_rate, c.sample_format⟩

/-- The construction-time error enumeration from `src/error.rs`
(`AudioPlayerError`). Payloads of backend-specific variants are dropped:
the code never inspects them. -/
inductive AudioPlayerError where
  | NoOutputDevice
  | DualChannelNotSupported
  | DeviceNotAvailable
  | DeviceBackendSpecificError
  | StreamTypeNotSupported
  | StreamConfigInvalidArgument
  | StreamIdOverflow
  | StreamConfigNotSupported
  | ResamplerConstructionError
deriving DecidableEq

/-! ## Device capability matcher (`AudioPlayer::new`, lib.rs 280–340) -/

/-- Pass 1 of the matcher (`lib.rs` 280–293): `found_conf` is set when some
enumerated configuration has 2 channels, the working sample format, and
the requested rate inside its supported range. -/
def found_conf (rate : Nat) (fmt : SampleFormat)
    (confs : List SupportedStreamConfigRange) : Bool :=
  confs.any fun c =>
    decide (c.channels = 2) && decide (c.sample_format = fmt) &&
    decide (c.min_sample_rate ≤ rate) && decide (rate ≤ c.max_sample_rate)

/-- The pass-2 score of a configuration (`lib.rs` 303–312): `curr_match`
starts at 0; a 2-channel configuration earns 1, plus 3 more for a matching
sample format, plus 2 more when the requested rate lies in its range. -/
def config_score (rate : Nat) (fmt : SampleFormat)
    (c : SupportedStreamConfigRange) : Nat :=
  if c.channels = 2 then
    1 + (if c.sample_format = fmt then 3 else 0)
      + (if c.min_sample_rate ≤ rate ∧ rate ≤ c.max_sample_rate then 2 else 0)
  else 0

/-- The pass-2 selection loop (`lib.rs` 300–317): keep the configuration
whose score strictly exceeds the running maximum (`curr_match > max_match`),
so ties keep the first-seen candidate. -/
def matched_conf_aux (rate : Nat) (fmt : SampleFormat) :
    List SupportedStreamConfigRange → Nat → Option SupportedStreamConfigRange →
    Option SupportedStreamConfigRange
  | [], _, best => best
  | c :: rest, max_match, best =>
    if max_match < config_score rate fmt c then
      matched_conf_aux rate fmt rest (config_score rate fmt c) (some c)
    else
      matched_conf_aux rate fmt rest max_match best

/-- `matched_conf` runs the pass-2 loop from `max_match = 0`,
`matched_conf = None` (`lib.rs` 300–301). -/
def matched_conf (rate : Nat) (fmt : SampleFormat)
    (confs : List SupportedStreamConfigRange) : Option SupportedStreamConfigRange :=
  matched_conf_aux rate fmt confs 0 none

/-- The configuration-selection core of `AudioPlayer::new`
(`lib.rs` 280–340), given the requested `rate`, the working sample
format `fmt` (`T::FORMAT`), the enumerated configurations `confs`, and the
backend's default output configuration `default_conf`
(`default_output_config()`). Returns the output sample rate, the output
format, and whether a resampler (rate converter) is constructed.
Resampler construction itself (`AudioResampler::new`) is assumed to
succeed; its fallibility is a pass-through backend error. -/
def AudioPlayer.new (rate : Nat) (fmt : SampleFormat)
    (confs : List SupportedStreamConfigRange)
    (default_conf : SupportedStreamConfig) :
    Except AudioPlayerError (Nat × SampleFormat × Bool) :=
  if found_conf rate fmt confs then
    Except.ok (rate, fmt, false)
  else
    let used_conf :=
      match matched_conf rate fmt confs with
      | some c => (c.try_with_sample_rate rate).getD c.with_max_sample_rate
      | none => default_conf
    if used_conf.channels ≠ 2 then
      Except.error AudioPlayerError.DualChannelNotSupported
    else
      Except.ok (used_conf.sample_rate, used_conf.sample_format, true)

/-! ## Buffer-size policy (`BufferSize`, lib.rs 163–189, 348) -/

/-- The `BufferSize` policy enumeration (`lib.rs` 163–175). -/
inductive BufferSize where
  | QuarterSecond
  | HalfSecond
  | OneSecond
  | Samples (n : Nat)
deriving DecidableEq

/-- `BufferSize::store_for_samples` (`lib.rs` 181–188): the number of
samples the handoff buffer will hold, for a given sample rate and channel
count. Note `Samples n` returns `n` verbatim, with no channel multiply. -/
def BufferSize.store_for_samples (self : BufferSize)
    (sample_rate : Nat) (channels : Nat) : Nat :=
  match self with
  | .QuarterSecond => sample_rate / 4 * channels
  | .HalfSecond => sample_rate / 2 * channels
  | .OneSecond => sample_rate * channels
  | .Samples alternative_samples => alternative_samples

/-- The ring-buffer capacity computed by `AudioPlayer::new`
(`lib.rs` 348): `buffer_size.store_for_samples(output_sample_rate, 2)` —
always evaluated at the *output* sample rate with channel count 2. -/
def AudioPlayer.ring_buffer_len (buffer_size : BufferSize)
    (output_sample_rate : Nat) : Nat :=
  buffer_size.store_for_samples output_sample_rate 2

/-! ## Channel frame codec (`read_frames` / `write_frames`, lib.rs 77–101) -/

/-- `read_frames` (`lib.rs` 77–90): deinterleave `n` stereo frames from
the front of `inbuffer` into two fresh per-channel buffers. The Rust
helper `unwrap`s its iterator, panicking when fewer than `2 * n` samples
are available; the panic is modelled as `none`. -/
def read_frames {T : Type} : List T → Nat → Option (List T × List T)
  | _, 0 => some ([], [])
  | x :: y :: rest, n + 1 =>
    (read_frames rest n).map fun p => (x :: p.1, y :: p.2)
  | [], _ + 1 => none
  | [_], _ + 1 => none

/-- `write_frames` (`lib.rs` 94–101): interleave two per-channel buffers
into a flat buffer, taking `waves[0].len()` frames and indexing
`waves[1]` at each frame. The Rust index panic (when channel 1 is shorter
than channel 0) is modelled as `none`; surplus channel-1 samples are
ignored, as in the source. -/
def write_frames {T : Type} : List T → List T → Option (List T)
  | [], _ => some []
  | x :: xs, y :: ys =>
    (write_frames xs ys).map fun r => x :: y :: r
  | _ :: _, [] => none

/-! ## Rate converter (`AudioResampler`, lib.rs 48–148)

The underlying transform (`rubato::FftFixedInOut` behind the `Resampler`
trait) is an external collaborator; it is abstracted as a state machine
with the interface the spec describes in §6: `input_frames_next`,
`output_frames_next`, and a per-channel processing call
(`process_into_buffer`). `input_frames_pos` records that a successfully
constructed transform always demands at least one input frame per call
(otherwise `AudioResampler::new` would have failed). -/

/-- Abstract interface of the resampling transform, over sample type `T`
and transform state `S`. `process_into_buffer` consumes the two
deinterleaved input scratch buffers and returns the transform's next state
together with the two output channel buffers it wrote (the Rust code
pre-sizes the output scratch buffers to `output_frames_next()` filled with
`T::EQUILIBRIUM`; a conforming transform overwrites them entirely). -/
structure ResamplerTransform (T S : Type) where
  input_frames_next : S → Nat
  output_frames_next : S → Nat
  process_into_buffer : S → List T → List T → S × (List T × List T)
  input_frames_pos : ∀ s, 0 < input_frames_next s

/-- One bounded run of the processing loop of
`AudioResampler::resample_into_producer` (`lib.rs` 106–146): while the
carry-over buffer holds at least `input_frames_next * 2` samples,
deinterleave that many frames from its front, run the transform,
interleave the result, emit it (append to `out`, the samples handed to the
producer), and drop the consumed samples from the front. `fuel` bounds the
number of iterations; every iteration consumes at least two carried
samples, so any `fuel > carry.length` is sufficient
(see `resampleLoop_fuel_irrel`), making the bound an artefact of the
embedding, not of the source's unbounded `loop`. -/
def resampleLoop {T S : Type} (rt : ResamplerTransform T S) :
    Nat → S → List T → List T → Option (S × List T × List T)
  | 0, _, _, _ => none
  | fuel + 1, s, carry, out =>
    let frames := rt.input_frames_next s
    if carry.length < frames * 2 then
      some (s, carry, out)
    else
      match read_frames carry frames with
      | none => none
      | some p =>
        let q := rt.process_into_buffer s p.1 p.2
        match write_frames q.2.1 q.2.2 with
        | none => none
        | some emitted =>
          resampleLoop rt fuel q.1 (carry.drop (frames * 2)) (out ++ emitted)

/-- The processing loop with its canonical (sufficient) fuel. -/
def loopC {T S : Type} (rt : ResamplerTransform T S)
    (s : S) (carry out : List T) : Option (S × List T × List T) :=
  resampleLoop rt (carry.length + 1) s carry out

/-- `AudioResampler::resample_into_producer` (`lib.rs` 75–147): extend the
carry-over buffer (`pre_resampled_buffer`) with `data`, then run the
processing loop. The result is the transform's new state, the remaining
carry-over buffer, and the concatenation of all sample blocks pushed to
the producer; `none` models a panic inside the loop. -/
def resample_into_producer {T S : Type} (rt : ResamplerTransform T S)
    (s : S) (pre_resampled_buffer : List T) (data : List T) :
    Option (S × List T × List T) :=
  loopC rt s (pre_resampled_buffer ++ data) []

/-- A sequence of `queue`/`feed` calls on the rate converter: thread the
transform state and carry-over buffer through
`resample_into_producer` once per chunk, concatenating the emitted
samples. -/
def feedChunks {T S : Type} (rt : ResamplerTransform T S) :
    S → List T → List (List T) → Option (S × List T × List T)
  | s, carry, [] => some (s, carry, [])
  | s, carry, d :: ds =>
    (resample_into_producer rt s carry d).bind fun r =>
      (feedChunks rt r.1 r.2.1 ds).map fun r2 =>
        (r2.1, r2.2.1, r.2.2 ++ r2.2.2)

/-! ## Lock-free handoff buffer (ringbuf `HeapRb`, used at lib.rs 348–352,
415–422, and utils.rs 29–81)

Modelled from the spec: the SPSC ring buffer is the external `ringbuf`
crate (`HeapRb` / `HeapProducer::push_slice` / `HeapConsumer::try_pop`),
not part of `src/`; §4.4 and §3 of the spec describe it as a
fixed-capacity FIFO queue whose `push` appends as many samples as fit and
silently drops the rest, and whose `pop` is non-blocking. -/

/-- Modelled from the spec: the bounded FIFO state of a `ringbuf::HeapRb`
— a fixed capacity and the queued samples, front first. -/
structure HeapRb (T : Type) where
  capacity : Nat
  data : List T
deriving DecidableEq

/-- Modelled from the spec: `HeapProducer::push_slice` — append the
longest prefix of `s` that fits in the free space, drop the rest, and
return the new buffer together with the number of samples appended. -/
def HeapRb.push_slice {T : Type} (rb : HeapRb T) (s : List T) :
    HeapRb T × Nat :=
  (⟨rb.capacity, rb.data ++ s.take (rb.capacity - rb.data.length)⟩,
    min (rb.capacity - rb.data.length) s.length)

/-- Modelled from the spec: `HeapConsumer::try_pop` — non-blocking pop of
the front sample, `none` when the buffer is empty. -/
def HeapRb.try_pop {T : Type} (rb : HeapRb T) : Option T × HeapRb T :=
  match rb.data with
  | [] => (none, rb)
  | x :: rest => (some x, ⟨rb.capacity, rest⟩)

/-- An operation on the handoff buffer: a producer-side `push` of a sample
slice (`AudioPlayer::queue` without a resampler, `lib.rs` 420) or one
consumer-side `pop` attempt (one slot of the realtime callback,
`utils.rs` 30–79). -/
inductive BufOp (T : Type) where
  | push (s : List T)
  | pop

/-- Run a sequence of buffer operations, starting from buffer `rb` with
`yielded` the samples already returned by pops and `accepted` the count of
samples already accepted by pushes. Returns the final buffer, every sample
yielded by a pop (equilibrium substitutions excluded), and the total
number of samples successfully pushed. -/
def runOps {T : Type} (rb : HeapRb T) (yielded : List T) (accepted : Nat) :
    List (BufOp T) → HeapRb T × List T × Nat
  | [] => (rb, yielded, accepted)
  | BufOp.push s :: ops =>
    let r := rb.push_slice s
    runOps r.1 yielded (accepted + r.2) ops
  | BufOp.pop :: ops =>
    match rb.try_pop with
    | (none, rb2) => runOps rb2 yielded accepted ops
    | (some x, rb2) => runOps rb2 (yielded ++ [x]) accepted ops

/-- The realtime output callback body (`utils.rs` 30–79): for each of `n`
output slots, `try_pop` a sample and substitute the equilibrium value `e`
(`T::EQUILIBRIUM`) when the buffer is empty. The per-format numeric
conversion (`from_sample`) is the backend's conversion primitive and is
outside the property being verified, so the fill is stated at the working
sample type. -/
def callbackFill {T : Type} (e : T) : Nat → HeapRb T → List T × HeapRb T
  | 0, rb => ([], rb)
  | n + 1, rb =>
    let p := rb.try_pop
    let rest := callbackFill e n p.2
    ((p.1.getD e) :: rest.1, rest.2)

/-- A concrete transform instance used to exhibit concrete runs of the
rate converter: one input frame and one output frame per call, the output
being the input unchanged. -/
def idTransform : ResamplerTransform Nat Unit where
  input_frames_next := fun _ => 1
  output_frames_next := fun _ => 1
  process_into_buffer := fun s c0 c1 => (s, (c0, c1))
  input_frames_pos := fun _ => Nat.one_pos

/-! ## Matcher lemmas -/

lemma found_conf_iff (rate : Nat) (fmt : SampleFormat)
    (confs : List SupportedStreamConfigRange) :
    found_conf rate fmt confs = true ↔
      ∃ c ∈ confs, c.channels = 2 ∧ c.sample_format = fmt ∧
        c.min_sample_rate ≤ rate ∧ rate ≤ c.max_sample_rate := by
  simp [found_conf, List.any_eq_true, and_assoc]

lemma config_score_pos_iff (rate : Nat) (fmt : SampleFormat)
    (c : SupportedStreamConfigRange) :
    0 < config_score rate fmt c ↔ c.channels = 2 := by
  unfold config_score
  by_cases h : c.channels = 2
  · rw [if_pos h]
    refine iff_of_true ?_ h
    omega
  · rw [if_neg h]
    exact iff_of_false (by omega) h

lemma matched_conf_aux_none_iff (rate : Nat) (fmt : SampleFormat) :
    ∀ (l : List SupportedStreamConfigRange) (m : Nat)
      (best : Option SupportedStreamConfigRange),
      matched_conf_aux rate fmt l m best = none ↔
        (best = none ∧ ∀ c ∈ l, config_score rate fmt c ≤ m) := by
  intro l
  induction l with
  | nil => intro m best; simp [matched_conf_aux]
  | cons c rest ih =>
    intro m best
    by_cases h : m < config_score rate fmt c
    · rw [matched_conf_aux, if_pos h, ih]
      constructor
      · rintro ⟨h1, -⟩; exact absurd h1 (by simp)
      · rintro ⟨-, h2⟩
        exact absurd (h2 c (by simp)) (by omega)
    · rw [matched_conf_aux, if_neg h, ih]
      constructor
      · rintro ⟨h1, h2⟩
        refine ⟨h1, fun d hd => ?_⟩
        rcases List.mem_cons.mp hd with rfl | hd
        · omega
        · exact h2 d hd
      · rintro ⟨h1, h2⟩
        exact ⟨h1, fun d hd => h2 d (List.mem_cons_of_mem _ hd)⟩

lemma matched_conf_none_iff (rate : Nat) (fmt : SampleFormat)
    (confs : List SupportedStreamConfigRange) :
    matched_conf rate fmt confs = none ↔ ∀ c ∈ confs, c.channels ≠ 2 := by
  rw [matched_conf, matched_conf_aux_none_iff]
  simp only [true_and]
  constructor
  · intro h c hc
    have h1 := h c hc
    intro h2
    have h3 := (config_score_pos_iff rate fmt c).mpr h2
    omega
  · intro h c hc
    have := (config_score_pos_iff rate fmt c).not.mpr (h c hc)
    omega

lemma matched_conf_aux_spec (rate : Nat) (fmt : SampleFormat) :
    ∀ (l : List SupportedStreamConfigRange) (m : Nat)
      (best : Option SupportedStreamConfigRange) (c : SupportedStreamConfigRange),
      matched_conf_aux rate fmt l m best = some c →
        (best = some c ∧ ∀ d ∈ l, config_score rate fmt d ≤ m) ∨
        (c ∈ l ∧ m < config_score rate fmt c ∧
          ∀ d ∈ l, config_score rate fmt d ≤ config_score rate fmt c) := by
  intro l
  induction l with
  | nil => intro m best c h; exact Or.inl ⟨h, by simp⟩
  | cons a rest ih =>
    intro m best c h
    by_cases ha : m < config_score rate fmt a
    · rw [matched_conf_aux, if_pos ha] at h
      rcases ih _ _ _ h with ⟨h1, h2⟩ | ⟨h1, h2, h3⟩
      · obtain rfl : a = c := by injection h1
        refine Or.inr ⟨by simp, ha, fun d hd => ?_⟩
        rcases List.mem_cons.mp hd with rfl | hd
        · exact le_refl _
        · exact h2 d hd
      · refine Or.inr ⟨List.mem_cons_of_mem _ h1, by omega, fun d hd => ?_⟩
        rcases List.mem_cons.mp hd with rfl | hd
        · omega
        · exact h3 d hd
    · rw [matched_conf_aux, if_neg ha] at h
      rcases ih _ _ _ h with ⟨h1, h2⟩ | ⟨h1, h2, h3⟩
      · refine Or.inl ⟨h1, fun d hd => ?_⟩
        rcases List.mem_cons.mp hd with rfl | hd
        · omega
        · exact h2 d hd
      · refine Or.inr ⟨List.mem_cons_of_mem _ h1, h2, fun d hd => ?_⟩
        rcases List.mem_cons.mp hd with rfl | hd
        · omega
        · exact h3 d hd

lemma matched_conf_aux_first (rate : Nat) (fmt : SampleFormat) :
    ∀ (l : List SupportedStreamConfigRange) (m : Nat)
      (best : Option SupportedStreamConfigRange) (c : SupportedStreamConfigRange),
      matched_conf_aux rate fmt l m best = some c →
        (best = some c ∧ ∀ d ∈ l, config_score rate fmt d ≤ m) ∨
        (∃ l1 l2, l = l1 ++ c :: l2 ∧ m < config_score rate fmt c ∧
          ∀ d ∈ l1, config_score rate fmt d ≤ m ∨
            config_score rate fmt d < config_score rate fmt c) := by
  intro l
  induction l with
  | nil => intro m best c h; exact Or.inl ⟨h, by simp⟩
  | cons a rest ih =>
    intro m best c h
    by_cases ha : m < config_score rate fmt a
    · rw [matched_conf_aux, if_pos ha] at h
      rcases ih _ _ _ h with ⟨h1, h2⟩ | ⟨l1, l2, h1, h2, h3⟩
      · obtain rfl : a = c := by injection h1
        exact Or.inr ⟨[], rest, rfl, ha, by simp⟩
      · refine Or.inr ⟨a :: l1, l2, by rw [h1]; rfl, by omega, fun d hd => ?_⟩
        rcases List.mem_cons.mp hd with rfl | hd
        · exact Or.inr (by omega)
        · rcases h3 d hd with h4 | h4
          · exact Or.inr (by omega)
          · exact Or.inr h4
    · rw [matched_conf_aux, if_neg ha] at h
      rcases ih _ _ _ h with ⟨h1, h2⟩ | ⟨l1, l2, h1, h2, h3⟩
      · refine Or.inl ⟨h1, fun d hd => ?_⟩
        rcases List.mem_cons.mp hd with rfl | hd
        · omega
        · exact h2 d hd
      · refine Or.inr ⟨a :: l1, l2, by rw [h1]; rfl, h2, fun d hd => ?_⟩
        rcases List.mem_cons.mp hd with rfl | hd
        · exact Or.inl (by omega)
        · exact h3 d hd

lemma matched_conf_channels (rate : Nat) (fmt : SampleFormat)
    (confs : List SupportedStreamConfigRange) (c : SupportedStreamConfigRange)
    (h : matched_conf rate fmt confs = some c) : c.channels = 2 := by
  rcases matched_conf_aux_spec rate fmt confs 0 none c h with ⟨h1, -⟩ | ⟨-, h1, -⟩
  · exact absurd h1 (by simp)
  · exact (config_score_pos_iff rate fmt c).mp (by omega)

lemma used_conf_channels (rate : Nat) (c : SupportedStreamConfigRange) :
    ((c.try_with_sample_rate rate).getD c.with_max_sample_rate).channels = c.channels := by
  unfold SupportedStreamConfigRange.try_with_sample_rate
    SupportedStreamConfigRange.with_max_sample_rate
  split <;> rfl

lemma used_conf_rate (rate : Nat) (c : SupportedStreamConfigRange) :
    ((c.try_with_sample_rate rate).getD c.with_max_sample_rate).sample_rate =
      if c.min_sample_rate ≤ rate ∧ rate ≤ c.max_sample_rate then rate
      else c.max_sample_rate := by
  unfold SupportedStreamConfigRange.try_with_sample_rate
    SupportedStreamConfigRange.with_max_sample_rate
  split <;> simp_all

lemma used_conf_format (rate : Nat) (c : SupportedStreamConfigRange) :
    ((c.try_with_sample_rate rate).getD c.with_max_sample_rate).sample_format =
      c.sample_format := by
  unfold SupportedStreamConfigRange.try_with_sample_rate
    SupportedStreamConfigRange.with_max_sample_rate
  split <;> rfl

/-! ## Claim C1 — exact match: no resampler, output rate = requested -/

/-- C1: whenever some enumerated device configuration has 2 channels, the
working sample format, and the requested rate within its `[min, max]`
range, `AudioPlayer::new` takes the exact-match path: construction
succeeds, the output sample rate equals the requested rate, the output
format is the working format, and no rate converter (resampler) is
created. -/
theorem exact_match_selects_requested_rate (rate : Nat) (fmt : SampleFormat)
    (confs : List SupportedStreamConfigRange) (dflt : SupportedStreamConfig)
    (h : ∃ c ∈ confs, c.channels = 2 ∧ c.sample_format = fmt ∧
      c.min_sample_rate ≤ rate ∧ rate ≤ c.max_sample_rate) :
    AudioPlayer.new rate fmt confs dflt = Except.ok (rate, fmt, false) := by
  have hf : found_conf rate fmt confs = true := (found_conf_iff rate fmt confs).mpr h
  simp [AudioPlayer.new, hf]

/-- C1 witness: a device list containing the exact configuration
`(2 channels, f32, 44100 ∈ [8000, 96000])` yields output rate 44100 and no
resampler. -/
theorem exact_match_selects_requested_rate_witness :
    AudioPlayer.new 44100 SampleFormat.f32
      [⟨1, 8000, 96000, SampleFormat.f32⟩, ⟨2, 8000, 96000, SampleFormat.f32⟩]
      ⟨2, 48000, SampleFormat.f32⟩ = Except.ok (44100, SampleFormat.f32, false) :=
  exact_match_selects_requested_rate 44100 SampleFormat.f32
    [⟨1, 8000, 96000, SampleFormat.f32⟩, ⟨2, 8000, 96000, SampleFormat.f32⟩]
    ⟨2, 48000, SampleFormat.f32⟩ (by decide)

/-! ## Claim C2 — resampler presence vs. rate difference (corrected)

The claim "a rate converter is created iff the selected output rate
differs from the requested rate" is false on the code: in the best-effort
branch (`lib.rs` 297–340) a resampler is created unconditionally, even
when `try_with_sample_rate` pins the output rate to the requested rate
(for example when the only configuration has 2 channels and the requested
rate in range but a different sample format). What holds instead: a
resampler is created iff the pass-1 exact match fails. -/

/-- C2 counterexample: with a single configuration
`(2 channels, [44100, 44100], f64)` and requested `(44100, f32)`, pass 1
fails on the format, pass 2 selects that configuration, and
`try_with_sample_rate` keeps the rate at 44100 — yet a resampler IS
created, refuting "converter iff selected rate ≠ requested rate" (here the
converter exists while `44100 ≠ 44100` is false). -/
theorem resampler_despite_equal_rate :
    AudioPlayer.new 44100 SampleFormat.f32
      [⟨2, 44100, 44100, SampleFormat.f64⟩] ⟨2, 48000, SampleFormat.f32⟩
      = Except.ok (44100, SampleFormat.f64, true)
    ∧ ¬ (true = true ↔ (44100 : Nat) ≠ 44100) :=
  ⟨rfl, fun hiff => (hiff.mp rfl) rfl⟩

/-- C2 amended: for every successful construction, a rate converter is
created if and only if the pass-1 exact match failed; in particular, when
an exact match exists the output rate equals the requested rate and no
converter is created (but a converter can coexist with an equal selected
rate, as the counterexample shows). -/
theorem resampler_iff_no_exact_match (rate : Nat) (fmt : SampleFormat)
    (confs : List SupportedStreamConfigRange) (dflt : SupportedStreamConfig)
    (out : Nat) (f : SampleFormat) (rs : Bool)
    (h : AudioPlayer.new rate fmt confs dflt = Except.ok (out, f, rs)) :
    (rs = true ↔ found_conf rate fmt confs = false) ∧
    (found_conf rate fmt confs = true → out = rate ∧ f = fmt ∧ rs = false) := by
  unfold AudioPlayer.new at h
  by_cases hfc : found_conf rate fmt confs = true
  · rw [if_pos hfc] at h
    rw [Except.ok.injEq, Prod.mk.injEq, Prod.mk.injEq] at h
    obtain ⟨rfl, rfl, rfl⟩ := h
    exact ⟨by simp [hfc], fun _ => ⟨rfl, rfl, rfl⟩⟩
  · rw [if_neg hfc] at h
    rcases hm : matched_conf rate fmt confs with - | c
    all_goals rw [hm] at h
    all_goals dsimp only at h
    all_goals split at h
    · exact absurd h (by simp)
    · rw [Except.ok.injEq, Prod.mk.injEq, Prod.mk.injEq] at h
      obtain ⟨-, -, rfl⟩ := h
      exact ⟨by simp [hfc], fun hc => absurd hc hfc⟩
    · exact absurd h (by simp)
    · rw [Except.ok.injEq, Prod.mk.injEq, Prod.mk.injEq] at h
      obtain ⟨-, -, rfl⟩ := h
      exact ⟨by simp [hfc], fun hc => absurd hc hfc⟩

/-- C2 amended witness: at the counterexample input the construction
succeeds with a resampler, and indeed pass 1 found no exact match. -/
theorem resampler_iff_no_exact_match_witness :
    (true = true ↔ found_conf 44100 SampleFormat.f32
      [⟨2, 44100, 44100, SampleFormat.f64⟩] = false) ∧
    (found_conf 44100 SampleFormat.f32 [⟨2, 44100, 44100, SampleFormat.f64⟩] = true →
      44100 = 44100 ∧ SampleFormat.f64 = SampleFormat.f32 ∧ true = false) :=
  resampler_iff_no_exact_match 44100 SampleFormat.f32
    [⟨2, 44100, 44100, SampleFormat.f64⟩] ⟨2, 48000, SampleFormat.f32⟩
    44100 SampleFormat.f64 true rfl

/-! ## Claim C3 — `DualChannelNotSupported` and the default fallback
(corrected)

The claim "fails with `DualChannelNotSupported` iff no enumerated
configuration has 2 channels, and only an empty configuration list
triggers the default-config fallback" is false on the code: any list with
no 2-channel entry (empty or not) makes `matched_conf = None`, which
triggers the fallback to `default_output_config()` (`lib.rs` 319–324);
when that default itself has 2 channels, construction succeeds without
error. What holds: the error occurs iff no enumerated configuration has 2
channels AND the backend default also lacks 2 channels; it is the only
matching error; and the fallback triggers exactly when no enumerated
configuration has 2 channels. -/

/-- C3 counterexample: a NONempty configuration list whose single entry
has 1 channel, with a 2-channel backend default: no enumerated
configuration has `channels == 2`, yet construction does not fail — it
falls back to the default (48000, f32) and succeeds, refuting both the
"iff" and the "only an empty list triggers fallback" parts of the
claim. -/
theorem fallback_default_without_error :
    AudioPlayer.new 44100 SampleFormat.f32
      [⟨1, 44100, 44100, SampleFormat.f32⟩] ⟨2, 48000, SampleFormat.f32⟩
      = Except.ok (48000, SampleFormat.f32, true)
    ∧ (⟨1, 44100, 44100, SampleFormat.f32⟩ : SupportedStreamConfigRange).channels ≠ 2 :=
  ⟨rfl, by decide⟩

/-- C3 amended: construction fails with `DualChannelNotSupported` iff no
enumerated configuration has 2 channels and the backend's default output
configuration also lacks 2 channels; `DualChannelNotSupported` is the only
error the matching step itself produces; and the fallback to the backend
default (`matched_conf = None`) happens exactly when no enumerated
configuration has 2 channels — not only for the empty list. -/
theorem dual_channel_error_iff (rate : Nat) (fmt : SampleFormat)
    (confs : List SupportedStreamConfigRange) (dflt : SupportedStreamConfig) :
    (AudioPlayer.new rate fmt confs dflt =
        Except.error AudioPlayerError.DualChannelNotSupported ↔
      ((∀ c ∈ confs, c.channels ≠ 2) ∧ dflt.channels ≠ 2)) ∧
    (∀ e, AudioPlayer.new rate fmt confs dflt = Except.error e →
      e = AudioPlayerError.DualChannelNotSupported) ∧
    (matched_conf rate fmt confs = none ↔ ∀ c ∈ confs, c.channels ≠ 2) := by
  have herr : ∀ e, AudioPlayer.new rate fmt confs dflt = Except.error e →
      e = AudioPlayerError.DualChannelNotSupported ∧
      (∀ c ∈ confs, c.channels ≠ 2) ∧ dflt.channels ≠ 2 := by
    intro e h
    unfold AudioPlayer.new at h
    by_cases hfc : found_conf rate fmt confs = true
    · rw [if_pos hfc] at h; exact absurd h (by simp)
    · rw [if_neg hfc] at h
      rcases hm : matched_conf rate fmt confs with - | c
      · rw [hm] at h
        dsimp only at h
        split at h
        · rename_i hch
          have he : AudioPlayerError.DualChannelNotSupported = e := Except.error.inj h
          exact ⟨he.symm, (matched_conf_none_iff rate fmt confs).mp hm, hch⟩
        · exact absurd h (by simp)
      · rw [hm] at h
        dsimp only at h
        have hc2 := matched_conf_channels rate fmt confs c hm
        split at h
        · rename_i hch
          rw [used_conf_channels rate c, hc2] at hch
          exact absurd rfl hch
        · exact absurd h (by simp)
  refine ⟨⟨fun h => (herr _ h).2, fun ⟨h1, h2⟩ => ?_⟩,
    fun e h => (herr e h).1, matched_conf_none_iff rate fmt confs⟩
  have hfc : found_conf rate fmt confs = false := by
    rw [Bool.eq_false_iff]
    intro hc
    obtain ⟨c, hmem, hch, -⟩ := (found_conf_iff rate fmt confs).mp hc
    exact h1 c hmem hch
  have hm : matched_conf rate fmt confs = none :=
    (matched_conf_none_iff rate fmt confs).mpr h1
  unfold AudioPlayer.new
  rw [hfc, hm]
  simp [h2]

/-- C3 amended witness: with a 1-channel-only device list and a 1-channel
backend default, construction fails with `DualChannelNotSupported`. -/
theorem dual_channel_error_iff_witness :
    AudioPlayer.new 44100 SampleFormat.f32
      [⟨1, 44100, 44100, SampleFormat.f32⟩] ⟨1, 48000, SampleFormat.f32⟩
      = Except.error AudioPlayerError.DualChannelNotSupported :=
  (dual_channel_error_iff 44100 SampleFormat.f32
    [⟨1, 44100, 44100, SampleFormat.f32⟩] ⟨1, 48000, SampleFormat.f32⟩).1.mpr
    (by decide)

/-! ## Claim C4 — best-effort pass: scoring, first-seen argmax, rate
pinning -/

/-- C4: when pass 1 finds no exact match and the pass-2 loop selects a
configuration `c`, then (a) `c` has 2 channels (a `channels ≠ 2`
configuration, scoring 0, is never selected), (b) `c` is the first-seen
configuration attaining the maximum score — every configuration strictly
before it scores strictly less, and every configuration scores at most
`config_score c` — and (c) construction succeeds with a resampler, the
output rate pinned to the requested rate when `c` supports it exactly and
clamped to `c`'s maximum rate otherwise. The score itself is
`config_score`: +1 for 2 channels, +3 more for a matching format, +2 more
for the requested rate in range, exactly as `lib.rs` 303–312 computes. -/
theorem best_effort_first_seen_argmax (rate : Nat) (fmt : SampleFormat)
    (confs : List SupportedStreamConfigRange) (dflt : SupportedStreamConfig)
    (c : SupportedStreamConfigRange)
    (hnf : found_conf rate fmt confs = false)
    (hm : matched_conf rate fmt confs = some c) :
    c.channels = 2 ∧
    (∃ l1 l2, confs = l1 ++ c :: l2 ∧
      ∀ d ∈ l1, config_score rate fmt d < config_score rate fmt c) ∧
    (∀ d ∈ confs, config_score rate fmt d ≤ config_score rate fmt c) ∧
    AudioPlayer.new rate fmt confs dflt =
      Except.ok
        ((if c.min_sample_rate ≤ rate ∧ rate ≤ c.max_sample_rate then rate
          else c.max_sample_rate), c.sample_format, true) := by
  have hch := matched_conf_channels rate fmt confs c hm
  have hmax : ∀ d ∈ confs, config_score rate fmt d ≤ config_score rate fmt c := by
    rcases matched_conf_aux_spec rate fmt confs 0 none c hm with ⟨h1, -⟩ | ⟨-, -, h1⟩
    · exact absurd h1 (by simp)
    · exact h1
  have hpos : 0 < config_score rate fmt c :=
    (config_score_pos_iff rate fmt c).mpr hch
  have hfirst : ∃ l1 l2, confs = l1 ++ c :: l2 ∧
      ∀ d ∈ l1, config_score rate fmt d < config_score rate fmt c := by
    rcases matched_conf_aux_first rate fmt confs 0 none c hm with ⟨h1, -⟩ | ⟨l1, l2, h1, -, h3⟩
    · exact absurd h1 (by simp)
    · refine ⟨l1, l2, h1, fun d hd => ?_⟩
      rcases h3 d hd with h4 | h4
      · omega
      · exact h4
  refine ⟨hch, hfirst, hmax, ?_⟩
  have hne : ¬ ((c.try_with_sample_rate rate).getD c.with_max_sample_rate).channels ≠ 2 := by
    rw [used_conf_channels rate c, hch]
    exact fun h => h rfl
  unfold AudioPlayer.new
  rw [hnf]
  rw [if_neg (by simp)]
  rw [hm]
  dsimp only
  rw [if_neg hne, used_conf_rate, used_conf_format]

/-- C4 witness: requested `(44100, f32)` against
`[(1 ch), (2 ch, [48000, 48000], f32)]`: no exact match, the second
configuration wins (score 4), every earlier configuration scores less,
and the output rate is clamped to 48000 with a resampler present. -/
theorem best_effort_first_seen_argmax_witness :
    (⟨2, 48000, 48000, SampleFormat.f32⟩ : SupportedStreamConfigRange).channels = 2 ∧
    (∃ l1 l2, [(⟨1, 8000, 96000, SampleFormat.f32⟩ : SupportedStreamConfigRange),
        ⟨2, 48000, 48000, SampleFormat.f32⟩] = l1 ++ ⟨2, 48000, 48000, SampleFormat.f32⟩ :: l2 ∧
      ∀ d ∈ l1, config_score 44100 SampleFormat.f32 d <
        config_score 44100 SampleFormat.f32 ⟨2, 48000, 48000, SampleFormat.f32⟩) ∧
    (∀ d ∈ [(⟨1, 8000, 96000, SampleFormat.f32⟩ : SupportedStreamConfigRange),
        ⟨2, 48000, 48000, SampleFormat.f32⟩],
      config_score 44100 SampleFormat.f32 d ≤
        config_score 44100 SampleFormat.f32 ⟨2, 48000, 48000, SampleFormat.f32⟩) ∧
    AudioPlayer.new 44100 SampleFormat.f32
      [⟨1, 8000, 96000, SampleFormat.f32⟩, ⟨2, 48000, 48000, SampleFormat.f32⟩]
      ⟨2, 48000, SampleFormat.f32⟩ =
      Except.ok
        ((if (⟨2, 48000, 48000, SampleFormat.f32⟩ :
            SupportedStreamConfigRange).min_sample_rate ≤ 44100 ∧
            44100 ≤ (⟨2, 48000, 48000, SampleFormat.f32⟩ :
            SupportedStreamConfigRange).max_sample_rate then 44100
          else (⟨2, 48000, 48000, SampleFormat.f32⟩ :
            SupportedStreamConfigRange).max_sample_rate),
          (⟨2, 48000, 48000, SampleFormat.f32⟩ :
            SupportedStreamConfigRange).sample_format, true) :=
  best_effort_first_seen_argmax 44100 SampleFormat.f32
    [⟨1, 8000, 96000, SampleFormat.f32⟩, ⟨2, 48000, 48000, SampleFormat.f32⟩]
    ⟨2, 48000, SampleFormat.f32⟩ ⟨2, 48000, 48000, SampleFormat.f32⟩
    (by decide) (by decide)

/-! ## Claim C5 — codec round-trip -/

/-- C5: for every stereo sample sequence `X` of length `2 * n`,
deinterleaving `X` into two per-channel buffers of `n` samples each with
`read_frames` and re-interleaving them with `write_frames` reconstructs
`X` exactly. -/
theorem interleave_deinterleave_roundtrip {T : Type} (n : Nat) (X : List T)
    (h : X.length = 2 * n) :
    (read_frames X n).bind (fun p => write_frames p.1 p.2) = some X := by
  induction n generalizing X with
  | zero =>
    have : X = [] := List.eq_nil_of_length_eq_zero (by omega)
    subst this
    rfl
  | succ n ih =>
    match X with
    | [] => simp at h
    | [x] => simp at h; omega
    | x :: y :: rest =>
      have hr : rest.length = 2 * n := by
        simp [List.length_cons] at h
        omega
      have := ih rest hr
      rw [read_frames]
      rcases hrf : read_frames rest n with - | p
      · rw [hrf] at this; simp at this
      · rw [hrf] at this
        simp only [Option.bind] at this
        simp only [Option.map, Option.bind]
        rw [write_frames]
        rw [this]
        rfl

/-- C5 witness: the concrete stereo sequence `[10, 20, 30, 40]` (2 frames)
round-trips through the codec unchanged. -/
theorem interleave_deinterleave_roundtrip_witness :
    (read_frames [10, 20, 30, 40] 2).bind
      (fun p => write_frames p.1 p.2) = some [(10 : Nat), 20, 30, 40] :=
  interleave_deinterleave_roundtrip 2 [10, 20, 30, 40] (by decide)

/-! ## Rate-converter lemmas -/

lemma read_frames_append {T : Type} :
    ∀ (n : Nat) (l b : List T), 2 * n ≤ l.length →
      read_frames (l ++ b) n = read_frames l n := by
  intro n
  induction n with
  | zero => intro l b h; rw [read_frames, read_frames]
  | succ n ih =>
    intro l b h
    match l with
    | [] => simp at h
    | [x] => simp at h; omega
    | x :: y :: rest =>
      have hr : 2 * n ≤ rest.length := by
        simp [List.length_cons] at h
        omega
      show (read_frames (rest ++ b) n).map _ = (read_frames rest n).map _
      rw [ih rest b hr]

lemma resampleLoop_fuel_irrel {T S : Type} (rt : ResamplerTransform T S) :
    ∀ (fuel1 fuel2 : Nat) (s : S) (carry out : List T),
      carry.length < fuel1 → carry.length < fuel2 →
      resampleLoop rt fuel1 s carry out = resampleLoop rt fuel2 s carry out := by
  intro fuel1
  induction fuel1 with
  | zero => intro fuel2 s carry out h1 h2; omega
  | succ f ih =>
    intro fuel2 s carry out h1 h2
    match fuel2 with
    | 0 => omega
    | g + 1 =>
      simp only [resampleLoop]
      by_cases hc : carry.length < rt.input_frames_next s * 2
      · rw [if_pos hc, if_pos hc]
      · rw [if_neg hc, if_neg hc]
        cases hrf : read_frames carry (rt.input_frames_next s) with
        | none => rfl
        | some p =>
          dsimp only
          cases hw : write_frames (rt.process_into_buffer s p.1 p.2).2.1
              (rt.process_into_buffer s p.1 p.2).2.2 with
          | none => rfl
          | some emitted =>
            have hpos := rt.input_frames_pos s
            apply ih
            · rw [List.length_drop]; omega
            · rw [List.length_drop]; omega

lemma loopC_eq {T S : Type} (rt : ResamplerTransform T S)
    (s : S) (carry out : List T) :
    loopC rt s carry out =
      if carry.length < rt.input_frames_next s * 2 then
        some (s, carry, out)
      else
        match read_frames carry (rt.input_frames_next s) with
        | none => none
        | some p =>
          match write_frames (rt.process_into_buffer s p.1 p.2).2.1
              (rt.process_into_buffer s p.1 p.2).2.2 with
          | none => none
          | some emitted =>
            loopC rt (rt.process_into_buffer s p.1 p.2).1
              (carry.drop (rt.input_frames_next s * 2)) (out ++ emitted) := by
  show resampleLoop rt (carry.length + 1) s carry out = _
  simp only [resampleLoop]
  by_cases hc : carry.length < rt.input_frames_next s * 2
  · rw [if_pos hc, if_pos hc]
  · rw [if_neg hc, if_neg hc]
    cases hrf : read_frames carry (rt.input_frames_next s) with
    | none => rfl
    | some p =>
      dsimp only
      cases hw : write_frames (rt.process_into_buffer s p.1 p.2).2.1
          (rt.process_into_buffer s p.1 p.2).2.2 with
      | none => rfl
      | some emitted =>
        have hpos := rt.input_frames_pos s
        apply resampleLoop_fuel_irrel
        · rw [List.length_drop]; omega
        · rw [List.length_drop]; omega

lemma resampleLoop_out_acc {T S : Type} (rt : ResamplerTransform T S) :
    ∀ (fuel : Nat) (s : S) (carry out : List T),
      resampleLoop rt fuel s carry out =
        (resampleLoop rt fuel s carry []).map fun r => (r.1, r.2.1, out ++ r.2.2) := by
  intro fuel
  induction fuel with
  | zero => intro s carry out; rfl
  | succ f ih =>
    intro s carry out
    simp only [resampleLoop]
    by_cases hc : carry.length < rt.input_frames_next s * 2
    · rw [if_pos hc, if_pos hc]; simp
    · rw [if_neg hc, if_neg hc]
      cases hrf : read_frames carry (rt.input_frames_next s) with
      | none => rfl
      | some p =>
        dsimp only
        cases hw : write_frames (rt.process_into_buffer s p.1 p.2).2.1
            (rt.process_into_buffer s p.1 p.2).2.2 with
        | none => rfl
        | some emitted =>
          dsimp only
          rw [ih _ _ (out ++ emitted), ih _ _ ([] ++ emitted)]
          cases resampleLoop rt f (rt.process_into_buffer s p.1 p.2).1
              (carry.drop (rt.input_frames_next s * 2)) [] with
          | none => rfl
          | some r => simp

lemma loopC_out_acc {T S : Type} (rt : ResamplerTransform T S)
    (s : S) (carry out : List T) :
    loopC rt s carry out =
      (loopC rt s carry []).map fun r => (r.1, r.2.1, out ++ r.2.2) :=
  resampleLoop_out_acc rt (carry.length + 1) s carry out

lemma loopC_append {T S : Type} (rt : ResamplerTransform T S) :
    ∀ (n : Nat) (s : S) (carry out b : List T), carry.length ≤ n →
      loopC rt s (carry ++ b) out =
        match loopC rt s carry out with
        | none => none
        | some r => loopC rt r.1 (r.2.1 ++ b) r.2.2 := by
  intro n
  induction n with
  | zero =>
    intro s carry out b hn
    obtain rfl : carry = [] := List.eq_nil_of_length_eq_zero (by omega)
    have hpos := rt.input_frames_pos s
    rw [loopC_eq rt s [] out, if_pos (by simp; omega)]
  | succ n ih =>
    intro s carry out b hn
    have hpos := rt.input_frames_pos s
    by_cases hc : carry.length < rt.input_frames_next s * 2
    · rw [loopC_eq rt s carry out, if_pos hc]
    · have hlen : rt.input_frames_next s * 2 ≤ carry.length := by omega
      have hcb : ¬ (carry ++ b).length < rt.input_frames_next s * 2 := by
        rw [List.length_append]; omega
      rw [loopC_eq rt s (carry ++ b) out, if_neg hcb,
        loopC_eq rt s carry out, if_neg hc,
        read_frames_append (rt.input_frames_next s) carry b (by omega)]
      cases hrf : read_frames carry (rt.input_frames_next s) with
      | none => rfl
      | some p =>
        dsimp only
        cases hw : write_frames (rt.process_into_buffer s p.1 p.2).2.1
            (rt.process_into_buffer s p.1 p.2).2.2 with
        | none => rfl
        | some emitted =>
          dsimp only
          rw [List.drop_append_of_le_length hlen]
          exact ih (rt.process_into_buffer s p.1 p.2).1
            (carry.drop (rt.input_frames_next s * 2)) (out ++ emitted) b
            (by rw [List.length_drop]; omega)

lemma loopC_quiescent {T S : Type} (rt : ResamplerTransform T S) :
    ∀ (n : Nat) (s : S) (carry out : List T) (r : S × List T × List T),
      carry.length ≤ n → loopC rt s carry out = some r →
      r.2.1.length < rt.input_frames_next r.1 * 2 := by
  intro n
  induction n with
  | zero =>
    intro s carry out r hn h
    obtain rfl : carry = [] := List.eq_nil_of_length_eq_zero (by omega)
    have hpos := rt.input_frames_pos s
    rw [loopC_eq rt s [] out, if_pos (by simp; omega)] at h
    obtain rfl : (s, ([] : List T), out) = r := Option.some.inj h
    simpa using by omega
  | succ n ih =>
    intro s carry out r hn h
    have hpos := rt.input_frames_pos s
    by_cases hc : carry.length < rt.input_frames_next s * 2
    · rw [loopC_eq rt s carry out, if_pos hc] at h
      obtain rfl : (s, carry, out) = r := Option.some.inj h
      simpa using hc
    · rw [loopC_eq rt s carry out, if_neg hc] at h
      cases hrf : read_frames carry (rt.input_frames_next s) with
      | none => rw [hrf] at h; exact absurd h (by simp)
      | some p =>
        rw [hrf] at h
        dsimp only at h
        cases hw : write_frames (rt.process_into_buffer s p.1 p.2).2.1
            (rt.process_into_buffer s p.1 p.2).2.2 with
        | none => rw [hw] at h; exact absurd h (by simp)
        | some emitted =>
          rw [hw] at h
          dsimp only at h
          exact ih _ _ _ r (by rw [List.length_drop]; omega) h

lemma loopC_parity {T S : Type} (rt : ResamplerTransform T S) :
    ∀ (n : Nat) (s : S) (carry out : List T) (r : S × List T × List T),
      carry.length ≤ n → loopC rt s carry out = some r →
      r.2.1.length % 2 = carry.length % 2 := by
  intro n
  induction n with
  | zero =>
    intro s carry out r hn h
    obtain rfl : carry = [] := List.eq_nil_of_length_eq_zero (by omega)
    have hpos := rt.input_frames_pos s
    rw [loopC_eq rt s [] out, if_pos (by simp; omega)] at h
    obtain rfl : (s, ([] : List T), out) = r := Option.some.inj h
    rfl
  | succ n ih =>
    intro s carry out r hn h
    have hpos := rt.input_frames_pos s
    by_cases hc : carry.length < rt.input_frames_next s * 2
    · rw [loopC_eq rt s carry out, if_pos hc] at h
      obtain rfl : (s, carry, out) = r := Option.some.inj h
      rfl
    · rw [loopC_eq rt s carry out, if_neg hc] at h
      cases hrf : read_frames carry (rt.input_frames_next s) with
      | none => rw [hrf] at h; exact absurd h (by simp)
      | some p =>
        rw [hrf] at h
        dsimp only at h
        cases hw : write_frames (rt.process_into_buffer s p.1 p.2).2.1
            (rt.process_into_buffer s p.1 p.2).2.2 with
        | none => rw [hw] at h; exact absurd h (by simp)
        | some emitted =>
          rw [hw] at h
          dsimp only at h
          have := ih _ _ _ r (by rw [List.length_drop]; omega) h
          rw [this, List.length_drop]
          omega

lemma resample_into_producer_append {T S : Type} (rt : ResamplerTransform T S)
    (s : S) (carry d1 d2 : List T) :
    resample_into_producer rt s carry (d1 ++ d2) =
      match resample_into_producer rt s carry d1 with
      | none => none
      | some r =>
        (resample_into_producer rt r.1 r.2.1 d2).map fun r2 =>
          (r2.1, r2.2.1, r.2.2 ++ r2.2.2) := by
  unfold resample_into_producer
  rw [← List.append_assoc]
  rw [loopC_append rt (carry ++ d1).length s (carry ++ d1) [] d2 (le_refl _)]
  cases loopC rt s (carry ++ d1) [] with
  | none => rfl
  | some r => exact loopC_out_acc rt r.1 (r.2.1 ++ d2) r.2.2

lemma feedChunks_eq_flatten {T S : Type} (rt : ResamplerTransform T S) :
    ∀ (chunks : List (List T)) (s : S) (carry : List T),
      carry.length < rt.input_frames_next s * 2 →
      feedChunks rt s carry chunks =
        resample_into_producer rt s carry chunks.flatten := by
  intro chunks
  induction chunks with
  | nil =>
    intro s carry hq
    show _ = loopC rt s (carry ++ []) []
    rw [List.append_nil, loopC_eq rt s carry [], if_pos hq]
    rfl
  | cons d ds ih =>
    intro s carry hq
    rw [List.flatten_cons, resample_into_producer_append rt s carry d ds.flatten]
    show (resample_into_producer rt s carry d).bind _ = _
    cases hres : resample_into_producer rt s carry d with
    | none => rfl
    | some r =>
      have hq2 : r.2.1.length < rt.input_frames_next r.1 * 2 :=
        loopC_quiescent rt (carry ++ d).length s (carry ++ d) [] r (le_refl _) hres
      dsimp only [Option.bind]
      rw [ih r.1 r.2.1 hq2]

/-! ## Claim C6 — chunking invariance of the rate converter -/

/-- C6: feeding the rate converter the same total sample stream in two
different chunkings (two partitions with the same concatenation) produces
exactly the same result: the same transform state, the same final
carry-over buffer, and bit-identical emitted output — for every underlying
transform. The carry-over accounting of
`resample_into_producer` processes samples purely by position, so chunk
boundaries are invisible. -/
theorem chunking_invariance {T S : Type} (rt : ResamplerTransform T S)
    (s : S) (chunks1 chunks2 : List (List T))
    (h : chunks1.flatten = chunks2.flatten) :
    feedChunks rt s [] chunks1 = feedChunks rt s [] chunks2 := by
  have hpos := rt.input_frames_pos s
  have h0 : ([] : List T).length < rt.input_frames_next s * 2 := by simp; omega
  rw [feedChunks_eq_flatten rt chunks1 s [] h0,
    feedChunks_eq_flatten rt chunks2 s [] h0, h]

/-- C6 witness: feeding `[1,2],[3,4]` in two chunks equals feeding
`[1,2,3,4]` at once, through the concrete identity transform. -/
theorem chunking_invariance_witness :
    feedChunks idTransform () [] [[1, 2], [3, 4]] =
      feedChunks idTransform () [] [[1, 2, 3, 4]] :=
  chunking_invariance idTransform () [[1, 2], [3, 4]] [[1, 2, 3, 4]] (by decide)

/-! ## Claim C10 — carry-over holds whole stereo frames (corrected)

The claim "after every feed/queue call the carry-over buffer length is a
multiple of 2" is false of the code as stated over *all* call sequences:
`queue` accepts arbitrary slices, and feeding a single sample leaves one
sample (half a frame) in the carry-over buffer. The invariant does hold
for every call sequence whose chunks each contain whole stereo frames
(even length), which is the intended usage the spec describes. -/

/-- C10 counterexample: feeding the single-sample (odd-length) slice `[5]`
from the fresh converter state leaves the carry-over buffer `[5]`, whose
length 1 is not a multiple of the channel count 2. -/
theorem odd_queue_breaks_parity :
    resample_into_producer idTransform () [] [5] = some ((), [5], []) ∧
    ([5] : List Nat).length % 2 ≠ 0 :=
  ⟨rfl, by decide⟩

/-- C10 amended: for every transform, every sequence of feed calls whose
chunks all have even length (whole stereo frames), starting from the fresh
(empty, or more generally even-length) carry-over buffer, keeps the
carry-over buffer length a multiple of 2 after every call — in particular
after the whole sequence. -/
theorem even_chunks_preserve_whole_frames {T S : Type}
    (rt : ResamplerTransform T S) (s : S) (chunks : List (List T))
    (s' : S) (carry' out : List T)
    (he : ∀ d ∈ chunks, d.length % 2 = 0)
    (h : feedChunks rt s [] chunks = some (s', carry', out)) :
    carry'.length % 2 = 0 := by
  suffices hgen : ∀ (chunks : List (List T)) (s : S) (carry : List T)
      (r : S × List T × List T), carry.length % 2 = 0 →
      (∀ d ∈ chunks, d.length % 2 = 0) →
      feedChunks rt s carry chunks = some r → r.2.1.length % 2 = 0 by
    exact hgen chunks s [] (s', carry', out) rfl he h
  intro chunks
  induction chunks with
  | nil =>
    intro s carry r hc he h
    obtain rfl : (s, carry, []) = r := Option.some.inj h
    exact hc
  | cons d ds ih =>
    intro s carry r hc he h
    rw [show feedChunks rt s carry (d :: ds) =
        (resample_into_producer rt s carry d).bind fun r1 =>
          (feedChunks rt r1.1 r1.2.1 ds).map fun r2 =>
            (r2.1, r2.2.1, r1.2.2 ++ r2.2.2) from rfl] at h
    cases hres : resample_into_producer rt s carry d with
    | none => rw [hres] at h; exact absurd h (by simp)
    | some r1 =>
      rw [hres] at h
      dsimp only [Option.bind] at h
      have hpar : r1.2.1.length % 2 = 0 := by
        have hd : d.length % 2 = 0 := he d (by simp)
        have := loopC_parity rt (carry ++ d).length s (carry ++ d) [] r1
          (le_refl _) hres
        rw [List.length_append] at this
        omega
      cases hfc : feedChunks rt r1.1 r1.2.1 ds with
      | none => rw [hfc] at h; exact absurd h (by simp)
      | some r2 =>
        rw [hfc] at h
        have h2 := ih r1.1 r1.2.1 r2 hpar (fun e hd => he e (by simp [hd])) hfc
        obtain rfl : (r2.1, r2.2.1, r1.2.2 ++ r2.2.2) = r := Option.some.inj h
        exact h2

/-- C10 amended witness: feeding the even-length chunk `[1, 2]` from the
fresh state leaves an empty (even-length) carry-over buffer. -/
theorem even_chunks_preserve_whole_frames_witness :
    (∀ d ∈ [[(1 : Nat), 2]], d.length % 2 = 0) ∧ ([] : List Nat).length % 2 = 0 :=
  ⟨by decide, even_chunks_preserve_whole_frames idTransform () [[1, 2]] () [] [1, 2]
    (by decide) rfl⟩

/-! ## Handoff-buffer lemmas -/

lemma runOps_invariant {T : Type} :
    ∀ (ops : List (BufOp T)) (rb : HeapRb T) (yielded : List T) (accepted : Nat),
      yielded.length + rb.data.length = accepted →
      (runOps rb yielded accepted ops).2.1.length +
          (runOps rb yielded accepted ops).1.data.length =
        (runOps rb yielded accepted ops).2.2 := by
  intro ops
  induction ops with
  | nil => intro rb yielded accepted h; exact h
  | cons op ops ih =>
    intro rb yielded accepted h
    cases op with
    | push s =>
      show (runOps (rb.push_slice s).1 yielded (accepted + (rb.push_slice s).2) ops).2.1.length + _ = _
      apply ih
      simp [HeapRb.push_slice, List.length_take]
      omega
    | pop =>
      obtain ⟨cap, data⟩ := rb
      cases data with
      | nil =>
        show (runOps ⟨cap, []⟩ yielded accepted ops).2.1.length + _ = _
        exact ih _ _ _ h
      | cons x rest =>
        show (runOps ⟨cap, rest⟩ (yielded ++ [x]) accepted ops).2.1.length + _ = _
        apply ih
        simp at h ⊢
        omega

lemma callbackFill_spec {T : Type} (e : T) :
    ∀ (n : Nat) (rb : HeapRb T),
      (callbackFill e n rb).1 =
          rb.data.take n ++ List.replicate (n - rb.data.length) e ∧
      (callbackFill e n rb).2.data = rb.data.drop n ∧
      (callbackFill e n rb).2.capacity = rb.capacity := by
  intro n
  induction n with
  | zero => intro rb; exact ⟨by simp [callbackFill], by simp [callbackFill], rfl⟩
  | succ n ih =>
    intro rb
    obtain ⟨cap, data⟩ := rb
    cases data with
    | nil =>
      obtain ⟨ih1, ih2, ih3⟩ := ih ⟨cap, []⟩
      refine ⟨?_, ?_, ?_⟩
      · show e :: (callbackFill e n ⟨cap, []⟩).1 = _
        rw [ih1]
        simp [List.replicate_succ]
      · show (callbackFill e n ⟨cap, []⟩).2.data = _
        rw [ih2]
        simp
      · show (callbackFill e n ⟨cap, []⟩).2.capacity = _
        rw [ih3]
    | cons x rest =>
      obtain ⟨ih1, ih2, ih3⟩ := ih ⟨cap, rest⟩
      refine ⟨?_, ?_, ?_⟩
      · show x :: (callbackFill e n ⟨cap, rest⟩).1 = _
        rw [ih1]
        simp [List.length_cons]
      · show (callbackFill e n ⟨cap, rest⟩).2.data = _
        rw [ih2]
        rfl
      · show (callbackFill e n ⟨cap, rest⟩).2.capacity = _
        rw [ih3]

/-! ## Claim C7 — push accepts exactly the fitting prefix -/

/-- C7: pushing a slice `s` onto a buffer with `k = capacity − length` free
slots appends exactly the first `min k (length s)` samples of `s`, in
order, at the tail; drops the remainder; reports the accepted count with
no error value; keeps the capacity unchanged; and (given the buffer
invariant `length ≤ capacity`) never exceeds the capacity. The functional
model is total, so no blocking or allocation can occur. -/
theorem push_fills_free_slots {T : Type} (rb : HeapRb T) (s : List T)
    (hle : rb.data.length ≤ rb.capacity) :
    (rb.push_slice s).1.data =
        rb.data ++ s.take (rb.capacity - rb.data.length) ∧
    (rb.push_slice s).1.capacity = rb.capacity ∧
    (rb.push_slice s).2 = min (rb.capacity - rb.data.length) s.length ∧
    (rb.push_slice s).1.data.length =
        rb.data.length + min (rb.capacity - rb.data.length) s.length ∧
    (rb.push_slice s).1.data.length ≤ rb.capacity := by
  refine ⟨rfl, rfl, rfl, ?_, ?_⟩
  · simp [HeapRb.push_slice, List.length_take]
  · simp [HeapRb.push_slice, List.length_take]
    omega

/-- C7 witness: pushing `[1, 2, 3]` onto a capacity-3 buffer holding `[9]`
(2 free slots) accepts exactly `[1, 2]` and reports 2. -/
theorem push_fills_free_slots_witness :
    (HeapRb.push_slice (⟨3, [9]⟩ : HeapRb Nat) [1, 2, 3]).1.data =
        [9] ++ [1, 2, 3].take (3 - [(9 : Nat)].length) ∧
    (HeapRb.push_slice (⟨3, [9]⟩ : HeapRb Nat) [1, 2, 3]).1.capacity = 3 ∧
    (HeapRb.push_slice (⟨3, [9]⟩ : HeapRb Nat) [1, 2, 3]).2 =
        min (3 - [(9 : Nat)].length) [1, 2, 3].length ∧
    (HeapRb.push_slice (⟨3, [9]⟩ : HeapRb Nat) [1, 2, 3]).1.data.length =
        [(9 : Nat)].length + min (3 - [(9 : Nat)].length) [1, 2, 3].length ∧
    (HeapRb.push_slice (⟨3, [9]⟩ : HeapRb Nat) [1, 2, 3]).1.data.length ≤ 3 :=
  push_fills_free_slots ⟨3, [9]⟩ [1, 2, 3] (by decide)

/-! ## Claim C8 — pop conservation and silence substitution -/

/-- C8: (i) over every sequence of push/pop operations from an initially
empty buffer, the samples yielded by pops never outnumber the samples
successfully pushed (the invariant `yielded + buffered = accepted` holds
throughout); (ii) the realtime callback filling `n` output slots writes
the buffered samples in order and the neutral/equilibrium value `e` into
every slot for which `try_pop` found the buffer empty, leaving the rest of
the queue and the capacity untouched — all functions are total, so no
blocking or panic is possible on this path. -/
theorem pop_conservation_and_silence (T : Type) (cap : Nat)
    (ops : List (BufOp T)) (e : T) (n : Nat) (rb : HeapRb T) :
    (runOps (⟨cap, []⟩ : HeapRb T) [] 0 ops).2.1.length ≤
        (runOps (⟨cap, []⟩ : HeapRb T) [] 0 ops).2.2 ∧
    (callbackFill e n rb).1 =
        rb.data.take n ++ List.replicate (n - rb.data.length) e ∧
    (callbackFill e n rb).1.length = n ∧
    (callbackFill e n rb).2.data = rb.data.drop n ∧
    (callbackFill e n rb).2.capacity = rb.capacity := by
  obtain ⟨h1, h2, h3⟩ := callbackFill_spec e n rb
  refine ⟨?_, h1, ?_, h2, h3⟩
  · have := runOps_invariant ops (⟨cap, []⟩ : HeapRb T) [] 0 (by simp)
    omega
  · rw [h1]
    simp [List.length_take]
    omega

/-! ## Claim C9 — buffer capacity per policy (corrected)

The claim "capacity equals the policy's sample count multiplied by the
channel count (2)" holds for the three time-based policies
(`rate/4 * 2`, `rate/2 * 2`, `rate * 2`, at the output rate), but not for
`Samples(n)`: `store_for_samples` returns `n` verbatim
(`lib.rs` 186), with no channel multiplication. -/

/-- C9 counterexample: `BufferSize::Samples(5)` at output rate 44100 with
2 channels yields capacity 5, not `5 * 2`. -/
theorem samples_policy_not_multiplied :
    BufferSize.store_for_samples (BufferSize.Samples 5) 44100 2 = 5 ∧
    (5 : Nat) ≠ 5 * 2 :=
  ⟨rfl, by decide⟩

/-- C9 amended: the handoff-buffer capacity fixed at construction
(`ring_buffer_len`, evaluated at the *output* sample rate with channel
count 2) is the policy's sample count multiplied by the channel count 2
for the three time-based policies — `rate/4 * 2`, `rate/2 * 2`,
`rate * 2` — while the explicit policy `Samples(n)` is used verbatim as
the capacity, with no channel multiplication. -/
theorem capacity_per_policy (rate n : Nat) :
    AudioPlayer.ring_buffer_len BufferSize.QuarterSecond rate = rate / 4 * 2 ∧
    AudioPlayer.ring_buffer_len BufferSize.HalfSecond rate = rate / 2 * 2 ∧
    AudioPlayer.ring_buffer_len BufferSize.OneSecond rate = rate * 2 ∧
    AudioPlayer.ring_buffer_len (BufferSize.Samples n) rate = n :=
  ⟨rfl, rfl, rfl, rfl⟩
